import Mathlib

/-!
Shallow embedding of the `note2org` renderer of `enml.py` (enex2org):
the tree walker (`process_elt`) that linearizes an ENML document tree
into a token stream of literal strings and marker sentinels, and the
single-pass post-processor (`ppRun`) that resolves indentation, list
numbering and table-row membership into the final org-mode string.
-/

namespace Enex2Org

/-- Token-stream items: literal text fragments and the nine marker
sentinels (`INDENT`, `DEDENT`, `START_ROW`, `END_ROW`, `LIST_ITEM`,
`BEGIN_ORDERED`, `END_ORDERED`, `BEGIN_UNORDERED`, `END_UNORDERED`)
of `enml.py`. -/
inductive Item where
  | str (s : String)
  | INDENT
  | DEDENT
  | START_ROW
  | END_ROW
  | LIST_ITEM
  | BEGIN_ORDERED
  | END_ORDERED
  | BEGIN_UNORDERED
  | END_UNORDERED
deriving Repr, DecidableEq

/-- Whether a stream item is a literal string (as opposed to a marker
sentinel). -/
def Item.isStr : Item → Bool
  | .str _ => true
  | _ => false

/-- Replace every newline character by `repl`, over character lists;
the embedding of Python `s.replace('\n', repl)` for the single-character
pattern used throughout `enml.py`. -/
def replaceNLChars (repl : List Char) : List Char → List Char
  | [] => []
  | c :: cs =>
    if c = '\n' then repl ++ replaceNLChars repl cs
    else c :: replaceNLChars repl cs

/-- `pyReplaceNL s repl` embeds Python `s.replace('\n', repl)`. -/
def pyReplaceNL (s repl : String) : String :=
  ⟨replaceNLChars repl.data s.data⟩

/-- Python `'  ' * indent_level`: two spaces per level, empty for a
non-positive level. -/
def indentStr (n : Int) : String :=
  String.join (List.replicate n.toNat "  ")

/-- What the post-processor appends for a literal string `s`: inside a
table row all newlines are removed; otherwise each newline is expanded
to a newline plus two spaces per indentation level. -/
def emitStr (inRow : Bool) (d : Int) (s : String) : String :=
  if inRow then pyReplaceNL s "" else pyReplaceNL s ("\n" ++ indentStr d)

/-- Last character of a string, if any (Python `s[-1]`). -/
def lastChar (s : String) : Option Char :=
  s.data.getLast?

/-- An ENML document-tree node, mirroring `xml.etree.ElementTree.Element`:
tag, attribute mapping, optional leading text, optional tail text
(the text following this node inside its parent), and child nodes. -/
inductive Elt where
  | mk (tag : String) (attrib : List (String × String)) (text : Option String)
      (tail : Option String) (children : List Elt)

/-- Node tag. -/
def Elt.tag : Elt → String
  | .mk t _ _ _ _ => t

/-- Node attribute list. -/
def Elt.attrib : Elt → List (String × String)
  | .mk _ a _ _ _ => a

/-- Leading text (`elt.text`). -/
def Elt.text : Elt → Option String
  | .mk _ _ t _ _ => t

/-- Tail text (`elt.tail`). -/
def Elt.tail : Elt → Option String
  | .mk _ _ _ tl _ => tl

/-- Child nodes. -/
def Elt.children : Elt → List Elt
  | .mk _ _ _ _ cs => cs

/-- Attachment resource; the renderer reads only its display filename. -/
structure Resource where
  filename : String
deriving Repr, DecidableEq

/-- The per-note render context consumed by `note2org`: the parsed
content tree, the hash-keyed resource table and the attachment
directory. -/
structure Note where
  content : Elt
  resources : List (String × Resource)
  attachment_dir : String

/-- Attribute lookup (`elt.attrib.get(k)`). -/
def pyGetAttr (attrib : List (String × String)) (k : String) : Option String :=
  (attrib.find? (fun p => p.1 = k)).map Prod.snd

/-- `os.path.join` for the two-argument uses in `enml.py`. -/
def pathJoin (a b : String) : String :=
  if b.startsWith "/" then b
  else if a = "" then b
  else if lastChar a = some '/' then a ++ b
  else a ++ "/" ++ b

/-- Items appended for an optional text fragment: Python
`if t: rv.append(t.replace('\n', ''))`. -/
def textItems : Option String → List Item
  | none => []
  | some t => if t = "" then [] else [.str (pyReplaceNL t "")]

/-- Errors the renderer can raise: `KeyError` (missing hash attribute or
missing resource), `TypeError` (subscripting a marker sentinel in
`add_newline`), `IndexError` (peek or pop on the empty list stack). -/
inductive Err where
  | keyError (k : String)
  | typeError
  | indexError
deriving Repr, DecidableEq

/-- The before-children part of the `add_newline` handler (`div`): append
a newline unless the stream is empty, ends in a falsy (empty) string, or
ends in a string whose last character is a newline; subscripting a marker
sentinel raises `TypeError`. -/
def add_newline_items (rv : List Item) : Except Err (List Item) :=
  match rv.getLast? with
  | none => .ok []
  | some (.str s) =>
    if s = "" then .ok []
    else if lastChar s = some '\n' then .ok []
    else .ok [.str "\n"]
  | some _ => .error .typeError

/-- Items appended by a tag's handler before the children are visited
(the code before `yield` in each context manager of `enml.py`);
dispatch mirrors the `tag2contextmgr` table. The `div` handler
(`add_newline`) inspects the stream built so far and raises `TypeError`
when the last item is a marker sentinel; the `en-media` handler raises
`KeyError` when the hash attribute is absent or not in the resource
table. -/
def beforeItems (note : Note) (tag : String) (attrib : List (String × String))
    (rv : List Item) : Except Err (List Item) :=
  if tag = "i" then .ok [.str "/"]
  else if tag = "li" then .ok [.LIST_ITEM, .INDENT]
  else if tag = "en-todo" then .ok [.str "[ ] "]
  else if tag = "strong" then .ok [.str "*"]
  else if tag = "a" then .ok [.str "[[", .str ((pyGetAttr attrib "href").getD ""), .str "]["]
  else if tag = "u" then .ok [.str "_"]
  else if tag = "b" then .ok [.str "*"]
  else if tag = "tr" then .ok [.str "\n", .START_ROW]
  else if tag = "td" then .ok [.str "| "]
  else if tag = "th" then .ok [.str "| "]
  else if tag = "table" then .ok [.str "\n|-"]
  else if tag = "div" then add_newline_items rv
  else if tag = "hr" then .ok [.str "\n----------\n"]
  else if tag = "ul" then .ok [.BEGIN_UNORDERED]
  else if tag = "ol" then .ok [.BEGIN_ORDERED]
  else if tag = "br" then .ok [.str "\n"]
  else if tag = "en-media" then
    match pyGetAttr attrib "hash" with
    | none => .error (.keyError "hash")
    | some h =>
      match note.resources.find? (fun p => p.1 = h) with
      | none => .error (.keyError h)
      | some (_, r) =>
        .ok [.str ("[[file:" ++ pathJoin note.attachment_dir r.filename
              ++ "][" ++ r.filename ++ "]]")]
  else .ok []

/-- Items appended by a tag's handler after the children are visited
(the code after `yield` in each context manager of `enml.py`). -/
def afterItems (tag : String) : List Item :=
  if tag = "i" then [.str "/"]
  else if tag = "li" then [.DEDENT]
  else if tag = "strong" then [.str "*"]
  else if tag = "a" then [.str "]]"]
  else if tag = "u" then [.str "_"]
  else if tag = "b" then [.str "*"]
  else if tag = "tr" then [.END_ROW]
  else if tag = "table" then [.str "\n|-"]
  else if tag = "div" then [.str "\n"]
  else if tag = "ul" then [.END_UNORDERED]
  else if tag = "ol" then [.END_ORDERED]
  else []

mutual

/-- The recursive walker `process_elt` of `note2org`: handler "before"
items, the node's own text, the children (each followed by its tail
text), then the handler "after" items. -/
def process_elt (note : Note) (e : Elt) (rv : List Item) : Except Err (List Item) :=
  match e with
  | .mk tag attrib text _tail cs =>
    match beforeItems note tag attrib rv with
    | .error er => .error er
    | .ok db =>
      match process_children note tag cs (rv ++ db ++ textItems text) with
      | .error er => .error er
      | .ok rv3 => .ok (rv3 ++ afterItems tag)

/-- The child loop of `process_elt`: a `br` child of a `div` is not
descended into, but every child's tail text is appended. -/
def process_children (note : Note) (ptag : String) (cs : List Elt)
    (rv : List Item) : Except Err (List Item) :=
  match cs with
  | [] => .ok rv
  | c :: rest =>
    if ptag = "div" ∧ c.tag = "br" then
      process_children note ptag rest (rv ++ textItems c.tail)
    else
      match process_elt note c rv with
      | .error er => .error er
      | .ok rv1 => process_children note ptag rest (rv1 ++ textItems c.tail)

end

/-- Post-processor state: current indentation depth, table-row flag,
list-nesting stack (`some n` = ordered list whose next ordinal is `n`,
`none` = unordered list), and the output fragments accumulated so far. -/
structure PPState where
  indent_level : Int
  in_row : Bool
  lists : List (Option Nat)
  new_strs : List String
deriving Repr, DecidableEq

/-- One step of the post-processing loop of `note2org` on a single
stream item. -/
def ppStep (st : PPState) : Item → Except Err PPState
  | .str s =>
    .ok { st with new_strs := st.new_strs ++ [emitStr st.in_row st.indent_level s] }
  | .INDENT => .ok { st with indent_level := st.indent_level + 1 }
  | .DEDENT => .ok { st with indent_level := st.indent_level - 1 }
  | .START_ROW => .ok { st with in_row := true }
  | .END_ROW => .ok { st with in_row := false }
  | .BEGIN_ORDERED => .ok { st with lists := some 1 :: st.lists }
  | .END_ORDERED =>
    match st.lists with
    | [] => .error .indexError
    | _ :: rest => .ok { st with lists := rest }
  | .BEGIN_UNORDERED => .ok { st with lists := none :: st.lists }
  | .END_UNORDERED =>
    match st.lists with
    | [] => .error .indexError
    | _ :: rest => .ok { st with lists := rest }
  | .LIST_ITEM =>
    match st.lists with
    | [] => .error .indexError
    | some (n + 1) :: rest =>
      .ok { st with
              lists := some (n + 2) :: rest
              new_strs := st.new_strs
                ++ [emitStr st.in_row st.indent_level ("\n" ++ toString (n + 1) ++ ". ")] }
    | _ :: _ =>
      .ok { st with new_strs := st.new_strs
              ++ [emitStr st.in_row st.indent_level "\n- "] }

/-- The full left-to-right post-processing pass. -/
def ppRun (st : PPState) : List Item → Except Err PPState
  | [] => .ok st
  | i :: rest =>
    match ppStep st i with
    | .error er => .error er
    | .ok st' => ppRun st' rest

/-- Initial post-processor state of `note2org`. -/
def initPP : PPState := ⟨0, false, [], []⟩

/-- `note2org`: walk the content tree into a token stream, resolve it,
and concatenate the output fragments. -/
def note2org (note : Note) : Except Err String :=
  match process_elt note note.content [] with
  | .error er => .error er
  | .ok rv =>
    match ppRun initPP rv with
    | .error er => .error er
    | .ok st => .ok (String.join st.new_strs)

mutual

/-- A tree is list-safe when every `li` node below it sits inside some
`ul` or `ol` subtree, so its `LIST_ITEM` marker is resolved while the
list stack is nonempty. -/
def noBareLi (e : Elt) : Bool :=
  match e with
  | .mk tag _ _ _ cs =>
    if tag = "ul" ∨ tag = "ol" then true
    else if tag = "li" then false
    else noBareLiList cs

/-- `noBareLi` over a list of sibling nodes. -/
def noBareLiList (cs : List Elt) : Bool :=
  match cs with
  | [] => true
  | c :: rest => noBareLi c && noBareLiList rest

end

/-- How a stack entry can evolve while its list is on top: unchanged, or
an ordinal bumped upward by `LIST_ITEM` markers. -/
def topRel (t t' : Option Nat) : Prop :=
  t = t' ∨ ∃ n m : Nat, t = some (n + 1) ∧ t' = some (m + 1) ∧ n ≤ m

/-- The row flag after a balanced segment: unchanged, or reset to false
by a row that ended inside the segment. -/
def rowOK (bin bout : Bool) : Prop := bout = bin ∨ bout = false

/-- Effect of a balanced segment started with a nonempty list stack:
the pass succeeds, indentation is restored, the row flag obeys `rowOK`,
the stack keeps its tail and relates its top by `topRel`, and output is
only appended. -/
def Seg1 (l : List Item) : Prop :=
  ∀ st t R, st.lists = t :: R →
    ∃ st', ppRun st l = .ok st' ∧
      st'.indent_level = st.indent_level ∧
      rowOK st.in_row st'.in_row ∧
      (∃ t', st'.lists = t' :: R ∧ topRel t t') ∧
      ∃ ns, st'.new_strs = st.new_strs ++ ns

/-- Effect of a balanced segment from an arbitrary state: the pass
succeeds, indentation and the whole list stack are restored exactly,
the row flag obeys `rowOK`, and output is only appended. -/
def Seg2 (l : List Item) : Prop :=
  ∀ st, ∃ st', ppRun st l = .ok st' ∧
    st'.indent_level = st.indent_level ∧
    rowOK st.in_row st'.in_row ∧
    st'.lists = st.lists ∧
    ∃ ns, st'.new_strs = st.new_strs ++ ns

/-- Segment contract produced by the walker for a node: `Seg1` always,
and `Seg2` when the node is list-safe. -/
def SegGood (safe : Bool) (l : List Item) : Prop :=
  Seg1 l ∧ (safe = true → Seg2 l)

/-- A segment consisting only of literal strings. -/
def StrItems (l : List Item) : Prop := ∀ i ∈ l, i.isStr = true

theorem topRel_refl (t : Option Nat) : topRel t t := Or.inl rfl

theorem topRel_trans {a b c : Option Nat} (h1 : topRel a b) (h2 : topRel b c) :
    topRel a c := by
  rcases h1 with h1 | ⟨n, m, rfl, rfl, hnm⟩
  · rwa [h1]
  · rcases h2 with h2 | ⟨n', m', he, rfl, hnm'⟩
    · rw [← h2]; exact Or.inr ⟨n, m, rfl, rfl, hnm⟩
    · obtain rfl : m = n' := by simpa using he
      exact Or.inr ⟨n, m', rfl, rfl, le_trans hnm hnm'⟩

theorem topRel_none {t' : Option Nat} (h : topRel none t') : t' = none := by
  rcases h with h | ⟨n, m, he, _, _⟩
  · exact h.symm
  · simp at he

theorem topRel_pos {n : Nat} {t' : Option Nat} (h : topRel (some (n + 1)) t') :
    ∃ m, t' = some (m + 1) := by
  rcases h with h | ⟨a, b, _, rfl, _⟩
  · exact ⟨n, h.symm⟩
  · exact ⟨b, rfl⟩

theorem rowOK_refl (b : Bool) : rowOK b b := Or.inl rfl

theorem rowOK_false (b : Bool) : rowOK b false := Or.inr rfl

theorem rowOK_trans {a b c : Bool} (h1 : rowOK a b) (h2 : rowOK b c) : rowOK a c := by
  rcases h2 with rfl | rfl
  · exact h1
  · exact Or.inr rfl

theorem rowOK_false_out {b : Bool} (h : rowOK false b) : b = false := by
  rcases h with rfl | rfl <;> rfl

theorem ppRun_append (a b : List Item) (st : PPState) :
    ppRun st (a ++ b) =
      match ppRun st a with
      | .error er => .error er
      | .ok st' => ppRun st' b := by
  induction a generalizing st with
  | nil => simp [ppRun]
  | cons i rest ih =>
    simp only [List.cons_append, ppRun]
    cases ppStep st i with
    | error er => rfl
    | ok st' => exact ih st'

theorem seg2_nil : Seg2 [] := by
  intro st
  exact ⟨st, rfl, rfl, rowOK_refl _, rfl, [], by simp⟩

theorem seg2_strItems {l : List Item} (h : StrItems l) : Seg2 l := by
  induction l with
  | nil => exact seg2_nil
  | cons i rest ih =>
    intro st
    have hi : i.isStr = true := h i (by simp)
    obtain ⟨s, rfl⟩ : ∃ s, i = Item.str s := by
      cases i <;> simp_all [Item.isStr]
    have hrest : StrItems rest := fun j hj => h j (by simp [hj])
    obtain ⟨st', hrun, hind, hrow, hlists, ns, hns⟩ :=
      ih hrest { st with new_strs := st.new_strs ++ [emitStr st.in_row st.indent_level s] }
    refine ⟨st', ?_, hind, hrow, hlists, emitStr st.in_row st.indent_level s :: ns, ?_⟩
    · simp [ppRun, ppStep, hrun]
    · simp only at hns
      simp [hns]

theorem seg1_of_seg2 {l : List Item} (h : Seg2 l) : Seg1 l := by
  intro st t R hst
  obtain ⟨st', hrun, hind, hrow, hlists, hns⟩ := h st
  exact ⟨st', hrun, hind, hrow, ⟨t, by rw [hlists, hst], topRel_refl t⟩, hns⟩

theorem seg1_append {a b : List Item} (ha : Seg1 a) (hb : Seg1 b) :
    Seg1 (a ++ b) := by
  intro st t R hst
  obtain ⟨st1, hrun1, hind1, hrow1, ⟨t1, hl1, htr1⟩, ns1, hns1⟩ := ha st t R hst
  obtain ⟨st2, hrun2, hind2, hrow2, ⟨t2, hl2, htr2⟩, ns2, hns2⟩ := hb st1 t1 R hl1
  refine ⟨st2, ?_, by rw [hind2, hind1], rowOK_trans hrow1 hrow2,
    ⟨t2, hl2, topRel_trans htr1 htr2⟩, ns1 ++ ns2, by simp [hns2, hns1]⟩
  rw [ppRun_append, hrun1]
  exact hrun2

theorem seg2_append {a b : List Item} (ha : Seg2 a) (hb : Seg2 b) :
    Seg2 (a ++ b) := by
  intro st
  obtain ⟨st1, hrun1, hind1, hrow1, hl1, ns1, hns1⟩ := ha st
  obtain ⟨st2, hrun2, hind2, hrow2, hl2, ns2, hns2⟩ := hb st1
  refine ⟨st2, ?_, by rw [hind2, hind1], rowOK_trans hrow1 hrow2,
    by rw [hl2, hl1], ns1 ++ ns2, by simp [hns2, hns1]⟩
  rw [ppRun_append, hrun1]
  exact hrun2

theorem SegGood_append {s1 s2 : Bool} {a b : List Item}
    (ha : SegGood s1 a) (hb : SegGood s2 b) : SegGood (s1 && s2) (a ++ b) := by
  refine ⟨seg1_append ha.1 hb.1, fun h => ?_⟩
  simp only [Bool.and_eq_true] at h
  exact seg2_append (ha.2 h.1) (hb.2 h.2)

theorem SegGood_of_imp {s1 s2 : Bool} {l : List Item}
    (himp : s1 = true → s2 = true) (h : SegGood s2 l) : SegGood s1 l :=
  ⟨h.1, fun hs => h.2 (himp hs)⟩

theorem SegGood_strItems {l : List Item} (b : Bool) (h : StrItems l) :
    SegGood b l :=
  ⟨seg1_of_seg2 (seg2_strItems h), fun _ => seg2_strItems h⟩

theorem strItems_textItems (t : Option String) : StrItems (textItems t) := by
  cases t with
  | none => intro i hi; simp [textItems] at hi
  | some s =>
    intro i hi
    simp only [textItems] at hi
    split at hi
    · simp at hi
    · simp at hi
      simp [hi, Item.isStr]

theorem SegGood_sandwich {p q l : List Item} {b : Bool}
    (hp : StrItems p) (hq : StrItems q) (h : SegGood b l) :
    SegGood b (p ++ l ++ q) := by
  have h1 := SegGood_append (SegGood_append (SegGood_strItems b hp) h) (SegGood_strItems b hq)
  simpa using h1

theorem SegGood_preStrs {p l : List Item} {b : Bool}
    (hp : StrItems p) (h : SegGood b l) : SegGood b (p ++ l) := by
  have h1 := SegGood_append (SegGood_strItems b hp) h
  simpa using h1

theorem wrapUl {l : List Item} (h : Seg1 l) :
    Seg2 (Item.BEGIN_UNORDERED :: l ++ [Item.END_UNORDERED]) := by
  intro st
  obtain ⟨st1, hrun1, hind1, hrow1, ⟨t1, hl1, htr1⟩, ns1, hns1⟩ :=
    h { st with lists := none :: st.lists } none st.lists rfl
  obtain rfl : t1 = none := topRel_none htr1
  refine ⟨{ st1 with lists := st.lists }, ?_, hind1, hrow1, rfl, ns1, hns1⟩
  simp only [ppRun, ppStep, List.append_eq]
  rw [ppRun_append, hrun1]
  simp [ppRun, ppStep, hl1]

theorem wrapOl {l : List Item} (h : Seg1 l) :
    Seg2 (Item.BEGIN_ORDERED :: l ++ [Item.END_ORDERED]) := by
  intro st
  obtain ⟨st1, hrun1, hind1, hrow1, ⟨t1, hl1, htr1⟩, ns1, hns1⟩ :=
    h { st with lists := some 1 :: st.lists } (some 1) st.lists rfl
  obtain ⟨m, rfl⟩ : ∃ m, t1 = some (m + 1) := topRel_pos htr1
  refine ⟨{ st1 with lists := st.lists }, ?_, hind1, hrow1, rfl, ns1, hns1⟩
  simp only [ppRun, ppStep, List.append_eq]
  rw [ppRun_append, hrun1]
  simp [ppRun, ppStep, hl1]

theorem wrapRow {b : Bool} {l : List Item} (h : SegGood b l) :
    SegGood b (Item.str "\n" :: Item.START_ROW :: l ++ [Item.END_ROW]) := by
  constructor
  · intro st t R hst
    obtain ⟨st1, hrun1, hind1, hrow1, ⟨t1, hl1, htr1⟩, ns1, hns1⟩ :=
      h.1 { st with
              in_row := true
              new_strs := st.new_strs ++ [emitStr st.in_row st.indent_level "\n"] }
        t R hst
    refine ⟨{ st1 with in_row := false }, ?_, hind1, rowOK_false _,
      ⟨t1, hl1, htr1⟩, emitStr st.in_row st.indent_level "\n" :: ns1, ?_⟩
    · simp only [ppRun, ppStep, List.append_eq]
      rw [ppRun_append, hrun1]
      simp [ppRun, ppStep]
    · simp only at hns1
      simp [hns1]
  · intro hb st
    obtain ⟨st1, hrun1, hind1, hrow1, hl1, ns1, hns1⟩ :=
      h.2 hb { st with
                 in_row := true
                 new_strs := st.new_strs ++ [emitStr st.in_row st.indent_level "\n"] }
    refine ⟨{ st1 with in_row := false }, ?_, hind1, rowOK_false _, hl1,
      emitStr st.in_row st.indent_level "\n" :: ns1, ?_⟩
    · simp only [ppRun, ppStep, List.append_eq]
      rw [ppRun_append, hrun1]
      simp [ppRun, ppStep]
    · simp only at hns1
      simp [hns1]

theorem wrapLi {l : List Item} (h : Seg1 l) :
    Seg1 (Item.LIST_ITEM :: Item.INDENT :: l ++ [Item.DEDENT]) := by
  intro st t R hst
  rcases t with _ | n
  · -- unordered entry on top
    obtain ⟨st1, hrun1, hind1, hrow1, ⟨t1, hl1, htr1⟩, ns1, hns1⟩ :=
      h { st with
            indent_level := st.indent_level + 1
            lists := none :: R
            new_strs := st.new_strs ++ [emitStr st.in_row st.indent_level "\n- "] }
        none R rfl
    refine ⟨{ st1 with indent_level := st1.indent_level - 1 }, ?_, ?_, hrow1,
      ⟨t1, hl1, htr1⟩, emitStr st.in_row st.indent_level "\n- " :: ns1, ?_⟩
    · simp only [ppRun, ppStep, hst, List.append_eq]
      rw [ppRun_append, hrun1]
      simp [ppRun, ppStep]
    · simp only at hind1
      simp [hind1]
    · simp only at hns1
      simp [hns1]
  · rcases n with _ | n
    · -- ordinal zero: Python falsy, treated as unordered
      obtain ⟨st1, hrun1, hind1, hrow1, ⟨t1, hl1, htr1⟩, ns1, hns1⟩ :=
        h { st with
              indent_level := st.indent_level + 1
              lists := some 0 :: R
              new_strs := st.new_strs ++ [emitStr st.in_row st.indent_level "\n- "] }
          (some 0) R rfl
      refine ⟨{ st1 with indent_level := st1.indent_level - 1 }, ?_, ?_, hrow1,
        ⟨t1, hl1, htr1⟩, emitStr st.in_row st.indent_level "\n- " :: ns1, ?_⟩
      · simp only [ppRun, ppStep, hst, List.append_eq]
        rw [ppRun_append, hrun1]
        simp [ppRun, ppStep]
      · simp only at hind1
        simp [hind1]
      · simp only at hns1
        simp [hns1]
    · -- positive ordinal: emit it and increment
      obtain ⟨st1, hrun1, hind1, hrow1, ⟨t1, hl1, htr1⟩, ns1, hns1⟩ :=
        h { st with
              indent_level := st.indent_level + 1
              lists := some (n + 2) :: R
              new_strs := st.new_strs
                ++ [emitStr st.in_row st.indent_level ("\n" ++ toString (n + 1) ++ ". ")] }
          (some (n + 2)) R rfl
      have htr : topRel (some (n + 1)) t1 := by
        rcases topRel_pos htr1 with ⟨m, rfl⟩
        refine Or.inr ⟨n, m, rfl, rfl, ?_⟩
        rcases htr1 with he | ⟨a, c, ha, hc, hac⟩
        · have h1 := Option.some.inj he
          omega
        · have h1 := Option.some.inj ha
          have h2 := Option.some.inj hc
          omega
      refine ⟨{ st1 with indent_level := st1.indent_level - 1 }, ?_, ?_, hrow1,
        ⟨t1, hl1, htr⟩,
        emitStr st.in_row st.indent_level ("\n" ++ toString (n + 1) ++ ". ") :: ns1, ?_⟩
      · simp only [ppRun, ppStep, hst, List.append_eq]
        rw [ppRun_append, hrun1]
        simp [ppRun, ppStep]
      · simp only at hind1
        simp [hind1]
      · simp only at hns1
        simp [hns1]


theorem strItems_append {a b : List Item} (ha : StrItems a) (hb : StrItems b) :
    StrItems (a ++ b) := by
  intro i hi
  rcases List.mem_append.mp hi with h | h
  · exact ha i h
  · exact hb i h

theorem strItems_nil : StrItems [] := by
  intro i hi
  simp at hi

theorem afterItems_strs {tag : String} (h1 : tag ≠ "li") (h2 : tag ≠ "tr")
    (h3 : tag ≠ "ul") (h4 : tag ≠ "ol") : StrItems (afterItems tag) := by
  intro i hi
  unfold afterItems at hi
  split_ifs at hi <;> simp_all [Item.isStr]

theorem beforeItems_strs {note : Note} {tag : String} {a : List (String × String)}
    {rv db : List Item} (h1 : tag ≠ "li") (h2 : tag ≠ "tr") (h3 : tag ≠ "ul")
    (h4 : tag ≠ "ol") (hb : beforeItems note tag a rv = .ok db) : StrItems db := by
  unfold beforeItems at hb
  by_cases e1 : tag = "i"
  · rw [if_pos e1] at hb
    injection hb with hdb; subst hdb; intro i hi; fin_cases hi <;> rfl
  rw [if_neg e1] at hb
  by_cases e2 : tag = "li"
  · exact absurd e2 h1
  rw [if_neg e2] at hb
  by_cases e3 : tag = "en-todo"
  · rw [if_pos e3] at hb
    injection hb with hdb; subst hdb; intro i hi; fin_cases hi <;> rfl
  rw [if_neg e3] at hb
  by_cases e4 : tag = "strong"
  · rw [if_pos e4] at hb
    injection hb with hdb; subst hdb; intro i hi; fin_cases hi <;> rfl
  rw [if_neg e4] at hb
  by_cases e5 : tag = "a"
  · rw [if_pos e5] at hb
    injection hb with hdb; subst hdb; intro i hi; fin_cases hi <;> rfl
  rw [if_neg e5] at hb
  by_cases e6 : tag = "u"
  · rw [if_pos e6] at hb
    injection hb with hdb; subst hdb; intro i hi; fin_cases hi <;> rfl
  rw [if_neg e6] at hb
  by_cases e7 : tag = "b"
  · rw [if_pos e7] at hb
    injection hb with hdb; subst hdb; intro i hi; fin_cases hi <;> rfl
  rw [if_neg e7] at hb
  by_cases e8 : tag = "tr"
  · exact absurd e8 h2
  rw [if_neg e8] at hb
  by_cases e9 : tag = "td"
  · rw [if_pos e9] at hb
    injection hb with hdb; subst hdb; intro i hi; fin_cases hi <;> rfl
  rw [if_neg e9] at hb
  by_cases e10 : tag = "th"
  · rw [if_pos e10] at hb
    injection hb with hdb; subst hdb; intro i hi; fin_cases hi <;> rfl
  rw [if_neg e10] at hb
  by_cases e11 : tag = "table"
  · rw [if_pos e11] at hb
    injection hb with hdb; subst hdb; intro i hi; fin_cases hi <;> rfl
  rw [if_neg e11] at hb
  by_cases e12 : tag = "div"
  · rw [if_pos e12] at hb
    unfold add_newline_items at hb
    split at hb
    · injection hb with hdb; subst hdb; intro i hi; fin_cases hi <;> rfl
    · split_ifs at hb <;> (injection hb with hdb; subst hdb; intro i hi; fin_cases hi <;> rfl)
    · exact Except.noConfusion hb
  rw [if_neg e12] at hb
  by_cases e13 : tag = "hr"
  · rw [if_pos e13] at hb
    injection hb with hdb; subst hdb; intro i hi; fin_cases hi <;> rfl
  rw [if_neg e13] at hb
  by_cases e14 : tag = "ul"
  · exact absurd e14 h3
  rw [if_neg e14] at hb
  by_cases e15 : tag = "ol"
  · exact absurd e15 h4
  rw [if_neg e15] at hb
  by_cases e16 : tag = "br"
  · rw [if_pos e16] at hb
    injection hb with hdb; subst hdb; intro i hi; fin_cases hi <;> rfl
  rw [if_neg e16] at hb
  by_cases e17 : tag = "en-media"
  · rw [if_pos e17] at hb
    split at hb
    · exact Except.noConfusion hb
    · split at hb
      · exact Except.noConfusion hb
      · injection hb with hdb; subst hdb; intro i hi; fin_cases hi <;> rfl
  rw [if_neg e17] at hb
  injection hb with hdb; subst hdb; intro i hi; fin_cases hi <;> rfl

theorem noBareLi_eq {tag : String} {a : List (String × String)} {t tl : Option String}
    {cs : List Elt} (h1 : ¬(tag = "ul" ∨ tag = "ol")) (h2 : tag ≠ "li") :
    noBareLi (.mk tag a t tl cs) = noBareLiList cs := by
  rw [noBareLi, if_neg h1, if_neg h2]

mutual

theorem segElt (note : Note) (e : Elt) (rv rv' : List Item)
    (h : process_elt note e rv = .ok rv') :
    ∃ l, rv' = rv ++ l ∧ SegGood (noBareLi e) l := by
  obtain ⟨tag, a, t, tl, cs⟩ := e
  rw [process_elt] at h
  split at h
  · simp at h
  · rename_i db hb
    split at h
    · simp at h
    · rename_i rv3 hc
      simp only [Except.ok.injEq] at h
      subst h
      obtain ⟨l1, hl1, hg1⟩ := segList note tag cs _ _ hc
      refine ⟨db ++ textItems t ++ l1 ++ afterItems tag, ?_, ?_⟩
      · rw [hl1]; simp [List.append_assoc]
      · by_cases hli : tag = "li"
        · subst hli
          have hdb : db = [Item.LIST_ITEM, Item.INDENT] := by
            have he : beforeItems note "li" a rv = .ok [Item.LIST_ITEM, Item.INDENT] := rfl
            rw [he] at hb
            exact (Except.ok.injEq _ _).mp hb.symm
          have hflag : noBareLi (Elt.mk "li" a t tl cs) = false := by
            rw [noBareLi]
            simp
          have hai : afterItems "li" = [Item.DEDENT] := rfl
          rw [hflag, hdb, hai]
          refine ⟨?_, by simp⟩
          have hinner : Seg1 (textItems t ++ l1) :=
            seg1_append (seg1_of_seg2 (seg2_strItems (strItems_textItems t))) hg1.1
          have hw := wrapLi hinner
          simpa [List.append_assoc] using hw
        · by_cases htr : tag = "tr"
          · subst htr
            have hdb : db = [Item.str "\n", Item.START_ROW] := by
              have he : beforeItems note "tr" a rv = .ok [Item.str "\n", Item.START_ROW] := rfl
              rw [he] at hb
              exact (Except.ok.injEq _ _).mp hb.symm
            have hflag : noBareLi (Elt.mk "tr" a t tl cs) = noBareLiList cs := by
              rw [noBareLi]
              simp
            have hai : afterItems "tr" = [Item.END_ROW] := rfl
            rw [hflag, hdb, hai]
            have hinner : SegGood (noBareLiList cs) (textItems t ++ l1) :=
              SegGood_preStrs (strItems_textItems t) hg1
            have hw := wrapRow hinner
            simpa [List.append_assoc] using hw
          · by_cases hul : tag = "ul"
            · subst hul
              have hdb : db = [Item.BEGIN_UNORDERED] := by
                have he : beforeItems note "ul" a rv = .ok [Item.BEGIN_UNORDERED] := rfl
                rw [he] at hb
                exact (Except.ok.injEq _ _).mp hb.symm
              have hflag : noBareLi (Elt.mk "ul" a t tl cs) = true := by
                rw [noBareLi]
                simp
              have hai : afterItems "ul" = [Item.END_UNORDERED] := rfl
              rw [hflag, hdb, hai]
              have hinner : Seg1 (textItems t ++ l1) :=
                seg1_append (seg1_of_seg2 (seg2_strItems (strItems_textItems t))) hg1.1
              have hw := wrapUl hinner
              have hgood : SegGood true
                  (Item.BEGIN_UNORDERED :: (textItems t ++ l1) ++ [Item.END_UNORDERED]) :=
                ⟨seg1_of_seg2 hw, fun _ => hw⟩
              simpa [List.append_assoc] using hgood
            · by_cases hol : tag = "ol"
              · subst hol
                have hdb : db = [Item.BEGIN_ORDERED] := by
                  have he : beforeItems note "ol" a rv = .ok [Item.BEGIN_ORDERED] := rfl
                  rw [he] at hb
                  exact (Except.ok.injEq _ _).mp hb.symm
                have hflag : noBareLi (Elt.mk "ol" a t tl cs) = true := by
                  rw [noBareLi]
                  simp
                have hai : afterItems "ol" = [Item.END_ORDERED] := rfl
                rw [hflag, hdb, hai]
                have hinner : Seg1 (textItems t ++ l1) :=
                  seg1_append (seg1_of_seg2 (seg2_strItems (strItems_textItems t))) hg1.1
                have hw := wrapOl hinner
                have hgood : SegGood true
                    (Item.BEGIN_ORDERED :: (textItems t ++ l1) ++ [Item.END_ORDERED]) :=
                  ⟨seg1_of_seg2 hw, fun _ => hw⟩
                simpa [List.append_assoc] using hgood
              · have hflag : noBareLi (Elt.mk tag a t tl cs) = noBareLiList cs :=
                  noBareLi_eq (by tauto) hli
                rw [hflag]
                have hp : StrItems (db ++ textItems t) :=
                  strItems_append (beforeItems_strs hli htr hul hol hb) (strItems_textItems t)
                have hq : StrItems (afterItems tag) := afterItems_strs hli htr hul hol
                exact SegGood_sandwich hp hq hg1

theorem segList (note : Note) (ptag : String) (cs : List Elt) (rv rv' : List Item)
    (h : process_children note ptag cs rv = .ok rv') :
    ∃ l, rv' = rv ++ l ∧ SegGood (noBareLiList cs) l := by
  cases cs with
  | nil =>
    rw [process_children] at h
    simp only [Except.ok.injEq] at h
    exact ⟨[], by simp [h], SegGood_strItems _ strItems_nil⟩
  | cons c rest =>
    rw [process_children] at h
    by_cases hsup : ptag = "div" ∧ c.tag = "br"
    · rw [if_pos hsup] at h
      obtain ⟨lr, hlr, hgr⟩ := segList note ptag rest _ _ h
      refine ⟨textItems c.tail ++ lr, by rw [hlr]; simp [List.append_assoc], ?_⟩
      have hg := SegGood_preStrs (strItems_textItems c.tail) hgr
      refine SegGood_of_imp ?_ hg
      intro hcs
      rw [noBareLiList] at hcs
      simp only [Bool.and_eq_true] at hcs
      exact hcs.2
    · rw [if_neg hsup] at h
      split at h
      · simp at h
      · rename_i rv1 hce
        obtain ⟨lc, hlc, hgc⟩ := segElt note c rv rv1 hce
        obtain ⟨lr, hlr, hgr⟩ := segList note ptag rest _ _ h
        refine ⟨lc ++ textItems c.tail ++ lr, ?_, ?_⟩
        · rw [hlr, hlc]; simp [List.append_assoc]
        · have h2 := SegGood_append hgc (SegGood_preStrs (strItems_textItems c.tail) hgr)
          have hfl : noBareLiList (c :: rest) = (noBareLi c && noBareLiList rest) := by
            rw [noBareLiList]
          rw [hfl]
          simpa [List.append_assoc] using h2

end


theorem liStream (note : Note) (l : Elt) (rv rv' : List Item)
    (htag : l.tag = "li") (h : process_elt note l rv = .ok rv') :
    ∃ body, rv' = rv ++ ([Item.LIST_ITEM, Item.INDENT] ++ body ++ [Item.DEDENT]) ∧
      Seg1 body ∧ (noBareLiList l.children = true → Seg2 body) := by
  obtain ⟨tag, a, t, tl, cs⟩ := l
  simp only [Elt.tag] at htag
  subst htag
  have hbe : beforeItems note "li" a rv = .ok [Item.LIST_ITEM, Item.INDENT] := rfl
  rw [process_elt] at h
  split at h
  · rename_i er hb
    rw [hbe] at hb
    exact Except.noConfusion hb
  · rename_i db hb
    rw [hbe] at hb
    injection hb with hdb
    subst hdb
    split at h
    · simp at h
    · rename_i rv3 hc
      simp only [Except.ok.injEq] at h
      subst h
      obtain ⟨l1, hl1, hg1⟩ := segList note "li" cs _ _ hc
      have hai : afterItems "li" = [Item.DEDENT] := rfl
      refine ⟨textItems t ++ l1, ?_, ?_, ?_⟩
      · rw [hl1, hai]
        simp [List.append_assoc]
      · exact seg1_append (seg1_of_seg2 (seg2_strItems (strItems_textItems t))) hg1.1
      · intro hnb
        simp only [Elt.children] at hnb
        exact seg2_append (seg2_strItems (strItems_textItems t)) (hg1.2 hnb)

theorem liRun {body : List Item} (h2 : Seg2 body) (d : Int) (n : Nat)
    (R : List (Option Nat)) (σ : List String) :
    ∃ ns, ppRun ⟨d, false, some (n + 1) :: R, σ⟩
        ([Item.LIST_ITEM, Item.INDENT] ++ body ++ [Item.DEDENT]) =
      .ok ⟨d, false, some (n + 2) :: R,
           σ ++ (emitStr false d ("\n" ++ toString (n + 1) ++ ". ") :: ns)⟩ := by
  obtain ⟨st1, hrun1, hind1, hrow1, hl1, ns1, hns1⟩ :=
    h2 ⟨d + 1, false, some (n + 2) :: R,
        σ ++ [emitStr false d ("\n" ++ toString (n + 1) ++ ". ")]⟩
  obtain ⟨i1, r1, L1, s1⟩ := st1
  simp only at hind1 hrow1 hl1 hns1
  subst hind1
  subst hl1
  subst hns1
  have hr1 : r1 = false := rowOK_false_out hrow1
  subst hr1
  refine ⟨ns1, ?_⟩
  simp only [ppRun, ppStep, List.cons_append, List.append_eq]
  rw [ppRun_append, List.nil_append, hrun1]
  simp [ppRun, ppStep]


theorem ppRun_seq {st1 st2 st3 : PPState} {p q : List Item}
    (hp : ppRun st1 p = .ok st2) (hq : ppRun st2 q = .ok st3) :
    ppRun st1 (p ++ q) = .ok st3 := by
  rw [ppRun_append, hp]
  exact hq

theorem strsRun {p : List Item} (hp : StrItems p) (d : Int)
    (L : List (Option Nat)) (σ : List String) :
    ∃ ns, ppRun ⟨d, false, L, σ⟩ p = .ok ⟨d, false, L, σ ++ ns⟩ := by
  obtain ⟨st', hrun, hind, hrow, hl, ns, hns⟩ := seg2_strItems hp ⟨d, false, L, σ⟩
  obtain ⟨i, r, LL, w⟩ := st'
  simp only at hind hrow hl hns
  subst hind
  subst hl
  subst hns
  have hr : r = false := rowOK_false_out hrow
  subst hr
  exact ⟨ns, hrun⟩

/-- A helper equation: the `div` dispatch of the handler table. -/
theorem beforeItems_div (note : Note) (a : List (String × String)) (rv : List Item) :
    beforeItems note "div" a rv = add_newline_items rv := rfl

/-- A minimal render context for concrete runs. -/
def emptyNote : Note := ⟨Elt.mk "en-note" [] none none [], [], "data/ab/cdef"⟩

/-- A one-item unordered list: a list-safe tree for concrete runs. -/
def ulNote : Note :=
  ⟨Elt.mk "ul" [] none none [Elt.mk "li" [] (some "x") none []], [], "d"⟩

/-- A media node whose hash is absent from the (empty) resource table. -/
def mediaElt : Elt := Elt.mk "en-media" [("hash", "abc123")] none none []

/-- A note whose content is a `div` with `mediaElt` as its only child:
the media node sits at a nested, walker-reachable position. -/
def deepMediaNote : Note :=
  ⟨Elt.mk "div" [] none none [mediaElt], [], "d"⟩

/-- A note whose content is a `div` whose only child is a `br` carrying
`mediaElt` as a child: the `br` child of the `div` is suppressed, so the
media node is never visited. -/
def brMediaNote : Note :=
  ⟨Elt.mk "div" [] none none
     [Elt.mk "br" [] none none [mediaElt]], [], "d"⟩

/-- A list item with no leading text whose first child is a `div`: the
walker's `add_newline` check then subscripts the INDENT marker. -/
def liDivNote : Note :=
  ⟨Elt.mk "li" [] none none [Elt.mk "div" [] none none []], [], "d"⟩

/-- First item of the concrete three-item ordered list. -/
def oli1 : Elt := Elt.mk "li" [] (some "one") none []

/-- Second item, with an unordered sub-list nested inside. -/
def oli2 : Elt :=
  Elt.mk "li" [] (some "two") none
    [Elt.mk "ul" [] none none [Elt.mk "li" [] (some "sub") none []]]

/-- Third item of the concrete three-item ordered list. -/
def oli3 : Elt := Elt.mk "li" [] (some "three") none []

/-- C2, counterexample: a tree whose token stream is produced by the
handler wrap protocol (a bare `li` node), on which the post-processing
pass raises `IndexError` at the LIST-ITEM marker instead of terminating
with the stated final state. -/
theorem claim2_counterexample :
    process_elt emptyNote (Elt.mk "li" [] none none []) [] =
      .ok [Item.LIST_ITEM, Item.INDENT, Item.DEDENT] ∧
    ppRun initPP [Item.LIST_ITEM, Item.INDENT, Item.DEDENT] = .error Err.indexError :=
  ⟨rfl, rfl⟩

/-- C2, amended: for every tree produced by the handler wrap protocol in
which every list-item node additionally sits inside an unordered or
ordered list, the post-processing pass over the walker's stream succeeds
(so the list stack never underflows) and terminates with indentation
depth 0, row flag false and an empty list-nesting stack. -/
theorem claim2_balanced_run (note : Note) (rv : List Item)
    (hw : process_elt note note.content [] = .ok rv)
    (hs : noBareLi note.content = true) :
    ∃ st', ppRun initPP rv = .ok st' ∧
      st'.indent_level = 0 ∧ st'.in_row = false ∧ st'.lists = [] := by
  obtain ⟨l, hl, hg⟩ := segElt note note.content [] rv hw
  simp only [List.nil_append] at hl
  subst hl
  obtain ⟨st', hrun, hind, hrow, hlists, _⟩ := hg.2 hs initPP
  refine ⟨st', hrun, ?_, ?_, ?_⟩
  · simpa [initPP] using hind
  · exact rowOK_false_out (by simpa [initPP] using hrow)
  · simpa [initPP] using hlists

/-- C2, witness: the amended theorem applied to a concrete one-item
unordered list. -/
theorem claim2_witness :
    ∃ st', ppRun initPP [Item.BEGIN_UNORDERED, Item.LIST_ITEM, Item.INDENT,
        Item.str "x", Item.DEDENT, Item.END_UNORDERED] = .ok st' ∧
      st'.indent_level = 0 ∧ st'.in_row = false ∧ st'.lists = [] :=
  claim2_balanced_run ulNote _ rfl rfl

/-- C3: whenever the pass reaches a LIST-ITEM marker with an empty
list-nesting stack, the whole post-processing run raises `IndexError`
(no output string is produced). -/
theorem claim3_list_item_empty_stack (st0 st : PPState) (pre post : List Item)
    (hpre : ppRun st0 pre = .ok st) (hempty : st.lists = []) :
    ppRun st0 (pre ++ Item.LIST_ITEM :: post) = .error Err.indexError := by
  rw [ppRun_append, hpre]
  simp [ppRun, ppStep, hempty]

/-- C3, witness: a stream that is just a LIST-ITEM marker. -/
theorem claim3_witness : ppRun initPP [Item.LIST_ITEM] = .error Err.indexError :=
  claim3_list_item_empty_stack initPP initPP [] [] rfl rfl

/-- Unfolding of the child loop when the first child is a suppressed
`br` under a `div`. -/
theorem process_children_cons_skip (note : Note) (ptag : String) (c : Elt)
    (rest : List Elt) (rv : List Item) (hsup : ptag = "div" ∧ c.tag = "br") :
    process_children note ptag (c :: rest) rv =
      process_children note ptag rest (rv ++ textItems c.tail) := by
  rw [process_children, if_pos hsup]

/-- Unfolding of the child loop when the first child is visited. -/
theorem process_children_cons_go (note : Note) (ptag : String) (c : Elt)
    (rest : List Elt) (rv : List Item) (hsup : ¬(ptag = "div" ∧ c.tag = "br")) :
    process_children note ptag (c :: rest) rv =
      match process_elt note c rv with
      | .error er => .error er
      | .ok rv1 => process_children note ptag rest (rv1 ++ textItems c.tail) := by
  rw [process_children, if_neg hsup]

/-- The walker, started at this node, reaches a media node whose hash
attribute is present but absent from the note's resource table; a `br`
child of a `div` is never visited, so nothing below it counts. -/
inductive ReachesBadMedia (note : Note) : Elt → Prop where
  | here (a : List (String × String)) (t tl : Option String) (cs : List Elt)
      (h : String) (hh : pyGetAttr a "hash" = some h)
      (hm : note.resources.find? (fun p => p.1 = h) = none) :
      ReachesBadMedia note (.mk "en-media" a t tl cs)
  | child (tag : String) (a : List (String × String)) (t tl : Option String)
      (cs : List Elt) (c : Elt) (hc : c ∈ cs)
      (hns : ¬(tag = "div" ∧ c.tag = "br"))
      (hr : ReachesBadMedia note c) :
      ReachesBadMedia note (.mk tag a t tl cs)

theorem badMediaChildrenErr (note : Note) (ptag : String) (c : Elt)
    (hcerr : ∀ rv, ∃ er, process_elt note c rv = .error er) (cs : List Elt) :
    ∀ rv, c ∈ cs → ¬(ptag = "div" ∧ c.tag = "br") →
      ∃ er, process_children note ptag cs rv = .error er := by
  induction cs with
  | nil =>
    intro rv hc
    simp at hc
  | cons d rest ih =>
    intro rv hc hns
    rcases List.mem_cons.mp hc with rfl | hmem
    · rw [process_children_cons_go note ptag c rest rv hns]
      obtain ⟨er, he⟩ := hcerr rv
      refine ⟨er, ?_⟩
      rw [he]
    · by_cases hsup : ptag = "div" ∧ d.tag = "br"
      · rw [process_children_cons_skip note ptag d rest rv hsup]
        exact ih (rv ++ textItems d.tail) hmem hns
      · rw [process_children_cons_go note ptag d rest rv hsup]
        cases hd : process_elt note d rv with
        | error er => exact ⟨er, rfl⟩
        | ok rv1 =>
          obtain ⟨er, he⟩ := ih (rv1 ++ textItems d.tail) hmem hns
          exact ⟨er, he⟩

theorem badMediaErr (note : Note) (e : Elt) (hre : ReachesBadMedia note e) :
    ∀ rv, ∃ er, process_elt note e rv = .error er := by
  induction hre with
  | here a t tl cs h hh hm =>
    intro rv
    refine ⟨Err.keyError h, ?_⟩
    have hbe : beforeItems note "en-media" a rv = .error (Err.keyError h) := by
      simp [beforeItems, hh, hm]
    rw [process_elt, hbe]
  | child tag a t tl cs c hc hns hr ih =>
    intro rv
    cases hb : beforeItems note tag a rv with
    | error er => exact ⟨er, by rw [process_elt, hb]⟩
    | ok db =>
      obtain ⟨er, he⟩ := badMediaChildrenErr note tag c ih cs (rv ++ db ++ textItems t) hc hns
      refine ⟨er, ?_⟩
      rw [process_elt, hb]
      show (match process_children note tag cs (rv ++ db ++ textItems t) with
            | Except.error er1 => Except.error er1
            | Except.ok rv3 => Except.ok (rv3 ++ afterItems tag)) = Except.error er
      rw [he]

/-- C4, counterexample: a note whose tree contains a media node with the
hash `"abc123"` absent from its (empty) resource table, placed under a
suppressed `br` child of a `div`: the node is never visited, no lookup
failure is signaled, and the note renders successfully. -/
theorem claim4_counterexample :
    brMediaNote.resources.find? (fun p => p.1 = "abc123") = none ∧
    note2org brMediaNote = .ok "\n" :=
  ⟨rfl, rfl⟩

/-- C4, amended: a media node the walker visits whose hash attribute
value is absent from the resource table raises `KeyError` with that hash
and appends nothing, from any stream prefix; and for every note whose
tree contains such a node at a walker-reachable position (not below a
suppressed `br` child of a `div`), `note2org` raises an error and
returns no output, so no dangling link token is ever emitted. -/
theorem claim4_missing_resource_visited (note : Note) :
    (∀ (a : List (String × String)) (t tl : Option String) (cs : List Elt)
        (h : String) (rv : List Item),
        pyGetAttr a "hash" = some h →
        note.resources.find? (fun p => p.1 = h) = none →
        process_elt note (Elt.mk "en-media" a t tl cs) rv = .error (Err.keyError h)) ∧
    (ReachesBadMedia note note.content → ∃ er, note2org note = .error er) := by
  constructor
  · intro a t tl cs h rv hhash hmiss
    have hbe : beforeItems note "en-media" a rv = .error (Err.keyError h) := by
      simp [beforeItems, hhash, hmiss]
    rw [process_elt, hbe]
  · intro hre
    obtain ⟨er, he⟩ := badMediaErr note note.content hre []
    exact ⟨er, by rw [note2org, he]⟩

/-- C4, witness: the media node with hash `"abc123"` nested inside a
`div` of a note with an empty resource table. -/
theorem claim4_witness :
    process_elt deepMediaNote (Elt.mk "en-media" [("hash", "abc123")] none none []) [] =
      .error (Err.keyError "abc123") ∧
    ∃ er, note2org deepMediaNote = .error er :=
  ⟨(claim4_missing_resource_visited deepMediaNote).1 [("hash", "abc123")] none none []
      "abc123" [] rfl rfl,
   (claim4_missing_resource_visited deepMediaNote).2
     (ReachesBadMedia.child "div" [] none none [mediaElt] mediaElt (List.Mem.head _)
       (by decide)
       (ReachesBadMedia.here [("hash", "abc123")] none none [] "abc123" rfl rfl))⟩

/-- C5: a literal fragment processed while the row flag is set has every
newline removed entirely; otherwise every newline is expanded to a
newline followed by two spaces per current indentation level. -/
theorem claim5_row_flattening (st : PPState) (s : String) :
    ppStep st (Item.str s) =
      .ok { st with new_strs := st.new_strs ++
        [if st.in_row then pyReplaceNL s ""
         else pyReplaceNL s ("\n" ++ String.join (List.replicate st.indent_level.toNat "  "))] } := by
  cases hb : st.in_row <;> simp [ppStep, emitStr, indentStr, hb]

/-- C6, counterexample: when the most recently appended stream item is a
structural marker, the `div` handler raises `TypeError` instead of
appending a newline before and after. -/
theorem claim6_counterexample :
    add_newline_items [Item.INDENT] = .error Err.typeError ∧
    process_elt emptyNote (Elt.mk "div" [] none none []) [Item.INDENT] =
      .error Err.typeError :=
  ⟨rfl, rfl⟩

/-- C6, amended: before a `div` node's children, a newline is appended
exactly when the stream ends in a nonempty string whose last character is
not a newline; an empty stream or a trailing empty string appends
nothing; a trailing marker sentinel raises `TypeError`; after the
children, a newline is always appended. -/
theorem claim6_amended (note : Note) (a : List (String × String)) (rv : List Item) :
    (rv = [] → beforeItems note "div" a rv = .ok []) ∧
    (∀ rv0 s, rv = rv0 ++ [Item.str s] →
      beforeItems note "div" a rv =
        .ok (if s ≠ "" ∧ lastChar s ≠ some '\n' then [Item.str "\n"] else [])) ∧
    (∀ rv0 i, rv = rv0 ++ [i] → i.isStr = false →
      beforeItems note "div" a rv = .error Err.typeError) ∧
    afterItems "div" = [Item.str "\n"] := by
  refine ⟨?_, ?_, ?_, rfl⟩
  · rintro rfl
    rfl
  · rintro rv0 s rfl
    rw [beforeItems_div]
    unfold add_newline_items
    rw [List.getLast?_concat]
    show (if s = "" then (Except.ok [] : Except Err (List Item))
          else if lastChar s = some '\n' then .ok [] else .ok [Item.str "\n"]) = _
    by_cases hs : s = ""
    · simp [hs]
    · by_cases hl : lastChar s = some '\n'
      · simp [hs, hl]
      · simp [hs, hl]
  · rintro rv0 i rfl hmark
    rw [beforeItems_div]
    unfold add_newline_items
    rw [List.getLast?_concat]
    cases i <;> first | rfl | simp [Item.isStr] at hmark

/-- C6, witness: a stream ending in the string `"a"` gets a newline
appended before the `div` children. -/
theorem claim6_witness :
    beforeItems emptyNote "div" [] [Item.str "a"] = .ok [Item.str "\n"] := by
  have h := (claim6_amended emptyNote [] [Item.str "a"]).2.1 [] "a" rfl
  simpa using h

/-- C7, counterexample: a horizontal-rule node whose own text is "x"
contributes that text to the token stream after the rule marker, so the
walker does descend into the node's content. -/
theorem claim7_counterexample :
    process_elt emptyNote (Elt.mk "hr" [] (some "x") none []) [] =
      .ok [Item.str "\n----------\n", Item.str "x"] ∧
    process_elt emptyNote (Elt.mk "hr" [] (some "x") none []) [] ≠
      .ok [Item.str "\n----------\n"] := by
  constructor
  · rfl
  · intro h2
    have h1 : process_elt emptyNote (Elt.mk "hr" [] (some "x") none []) [] =
        .ok [Item.str "\n----------\n", Item.str "x"] := rfl
    rw [h1] at h2
    have h3 := (Except.ok.injEq _ _).mp h2
    simp at h3

/-- C7, amended: for a horizontal-rule node the walker appends exactly
`"\n----------\n"` before the node's text and children, appends nothing
after them, and otherwise processes the text and children as usual (so a
childless, textless `hr` contributes only the marker fragment). -/
theorem claim7_amended (note : Note) (a : List (String × String)) (t tl : Option String)
    (cs : List Elt) (rv : List Item) :
    process_elt note (Elt.mk "hr" a t tl cs) rv =
      process_children note "hr" cs (rv ++ [Item.str "\n----------\n"] ++ textItems t) := by
  rw [process_elt]
  have hbe : beforeItems note "hr" a rv = .ok [Item.str "\n----------\n"] := rfl
  rw [hbe]
  have hai : afterItems "hr" = [] := rfl
  show (match process_children note "hr" cs (rv ++ [Item.str "\n----------\n"] ++ textItems t) with
        | Except.error er => Except.error er
        | Except.ok rv3 => Except.ok (rv3 ++ afterItems "hr")) = _
  cases h : process_children note "hr" cs (rv ++ [Item.str "\n----------\n"] ++ textItems t) with
  | error er => rfl
  | ok rv3 => simp [hai]

/-- C8, counterexample: a `div` with a single suppressed `br` child whose
tail is `"x"`: the tail is still emitted, so the suppressed child is not
suppressed "entirely". -/
theorem claim8_counterexample :
    process_elt emptyNote
        (Elt.mk "div" [] none none [Elt.mk "br" [] none (some "x") []]) [] =
      .ok [Item.str "x", Item.str "\n"] := rfl

/-- C8, amended: a `br` child of a `div` is not descended into (its
handler emits no newline and its text and children are skipped), but the
child's trailing text fragment is still appended. -/
theorem claim8_amended (note : Note) (c : Elt) (cs : List Elt) (rv : List Item)
    (hbr : c.tag = "br") :
    process_children note "div" (c :: cs) rv =
      process_children note "div" cs (rv ++ textItems c.tail) := by
  rw [process_children, if_pos ⟨rfl, hbr⟩]

/-- C8, witness: the amended claim on a concrete suppressed `br` child
with tail `"x"`. -/
theorem claim8_witness :
    process_children emptyNote "div" [Elt.mk "br" [] none (some "x") []] [] =
      .ok [Item.str "x"] := by
  rw [claim8_amended emptyNote (Elt.mk "br" [] none (some "x") []) [] [] rfl]
  rfl

/-- C9: rendering is deterministic in the render inputs: two notes with
the same content tree, resource table and attachment directory render to
the same result, and the embedding is a pure function of these inputs
(no mutation is possible). -/
theorem claim9_deterministic (n1 n2 : Note) (hc : n1.content = n2.content)
    (hr : n1.resources = n2.resources) (hd : n1.attachment_dir = n2.attachment_dir) :
    note2org n1 = note2org n2 := by
  obtain ⟨c1, r1, d1⟩ := n1
  obtain ⟨c2, r2, d2⟩ := n2
  simp only at hc hr hd
  subst hc
  subst hr
  subst hd
  rfl

/-- C9, witness: the determinism theorem applied to a concrete note. -/
theorem claim9_witness : note2org ulNote = note2org ulNote :=
  claim9_deterministic ulNote ulNote rfl rfl rfl

/-- C10: visiting a `div` node while the last appended stream item is a
marker sentinel makes the walker raise `TypeError`; concretely, a list
item with no leading text whose first child is a `div` makes `note2org`
raise instead of returning a string. -/
theorem claim10_marker_typeerror :
    (∀ (note : Note) (a : List (String × String)) (t tl : Option String)
        (cs : List Elt) (rv : List Item) (i : Item),
        rv.getLast? = some i → i.isStr = false →
        process_elt note (Elt.mk "div" a t tl cs) rv = .error Err.typeError) ∧
    note2org liDivNote = .error Err.typeError := by
  constructor
  · intro note a t tl cs rv i hlast hmark
    have hbe : beforeItems note "div" a rv = .error Err.typeError := by
      rw [beforeItems_div]
      unfold add_newline_items
      rw [hlast]
      cases i <;> first | rfl | simp [Item.isStr] at hmark
    rw [process_elt, hbe]
  · rfl

/-- C10, witness: the marker case at a concrete stream ending in
BEGIN-ORDERED. -/
theorem claim10_witness :
    process_elt emptyNote (Elt.mk "div" [] none none []) [Item.BEGIN_ORDERED] =
      .error Err.typeError :=
  claim10_marker_typeerror.1 emptyNote [] none none [] [Item.BEGIN_ORDERED]
    Item.BEGIN_ORDERED rfl rfl


/-- C1: for an ordered list node with three list-item children whose
bodies are list-safe (so unordered sub-lists may be nested inside them),
resolving the walker's segment from any state outside a table row
numbers the three items `1.`, `2.`, `3.` in document order; moreover, at
a LIST-ITEM marker the post-processor consults the top of the
list-nesting stack: a positive ordinal `n` is emitted as newline, `n`,
period, space and the stack entry incremented, and an unordered entry is
emitted as newline followed by `"- "`. -/
theorem claim1_ordered_numbering (note : Note) (a : List (String × String))
    (t tl : Option String) (l1 l2 l3 : Elt) (rv rv' : List Item)
    (h1 : l1.tag = "li") (h2 : l2.tag = "li") (h3 : l3.tag = "li")
    (hb1 : noBareLiList l1.children = true) (hb2 : noBareLiList l2.children = true)
    (hb3 : noBareLiList l3.children = true)
    (hw : process_elt note (Elt.mk "ol" a t tl [l1, l2, l3]) rv = .ok rv')
    (d : Int) (L : List (Option Nat)) (σ : List String) :
    (∃ q st' s0 s1 s2 s3,
      rv' = rv ++ q ∧
      ppRun ⟨d, false, L, σ⟩ q = .ok st' ∧
      st'.indent_level = d ∧ st'.in_row = false ∧ st'.lists = L ∧
      st'.new_strs = σ ++ s0
        ++ (emitStr false d "\n1. " :: s1)
        ++ (emitStr false d "\n2. " :: s2)
        ++ (emitStr false d "\n3. " :: s3)) ∧
    (∀ (st2 : PPState) (n : Nat) (R : List (Option Nat)),
      st2.lists = some (n + 1) :: R →
      ppStep st2 Item.LIST_ITEM = .ok { st2 with
        lists := some (n + 2) :: R
        new_strs := st2.new_strs
          ++ [emitStr st2.in_row st2.indent_level ("\n" ++ toString (n + 1) ++ ". ")] }) ∧
    (∀ (st2 : PPState) (R : List (Option Nat)), st2.lists = none :: R →
      ppStep st2 Item.LIST_ITEM = .ok { st2 with
        new_strs := st2.new_strs ++ [emitStr st2.in_row st2.indent_level "\n- "] }) := by
  refine ⟨?_, ?_, ?_⟩
  · have hnedivol : ¬("ol" = "div") := by decide
    have hbe : beforeItems note "ol" a rv = .ok [Item.BEGIN_ORDERED] := rfl
    have hai : afterItems "ol" = [Item.END_ORDERED] := rfl
    rw [process_elt] at hw
    split at hw
    · rename_i er hb
      rw [hbe] at hb
      exact Except.noConfusion hb
    · rename_i db hb
      rw [hbe] at hb
      injection hb with hdb
      subst hdb
      split at hw
      · simp at hw
      · rename_i rv3 hc
        simp only [Except.ok.injEq] at hw
        subst hw
        rw [process_children, if_neg (fun hh => hnedivol hh.1)] at hc
        split at hc
        · simp at hc
        · rename_i x1 hce1
          rw [process_children, if_neg (fun hh => hnedivol hh.1)] at hc
          split at hc
          · simp at hc
          · rename_i x2 hce2
            rw [process_children, if_neg (fun hh => hnedivol hh.1)] at hc
            split at hc
            · simp at hc
            · rename_i x3 hce3
              rw [process_children] at hc
              simp only [Except.ok.injEq] at hc
              subst hc
              obtain ⟨b1, hx1, _, hs1b⟩ := liStream note l1 _ _ h1 hce1
              obtain ⟨b2, hx2, _, hs2b⟩ := liStream note l2 _ _ h2 hce2
              obtain ⟨b3, hx3, _, hs3b⟩ := liStream note l3 _ _ h3 hce3
              have hS1 := hs1b hb1
              have hS2 := hs2b hb2
              have hS3 := hs3b hb3
              have e1 : ppRun ⟨d, false, L, σ⟩ [Item.BEGIN_ORDERED] =
                  .ok ⟨d, false, some 1 :: L, σ⟩ := by
                simp [ppRun, ppStep]
              obtain ⟨n0, e2⟩ := strsRun (strItems_textItems t) d (some 1 :: L) σ
              obtain ⟨m1, e3⟩ := liRun hS1 d 0 L (σ ++ n0)
              obtain ⟨n1, e4⟩ := strsRun (strItems_textItems l1.tail) d (some 2 :: L)
                ((σ ++ n0) ++ (emitStr false d ("\n" ++ toString (0 + 1) ++ ". ") :: m1))
              obtain ⟨m2, e5⟩ := liRun hS2 d 1 L
                ((σ ++ n0) ++ (emitStr false d ("\n" ++ toString (0 + 1) ++ ". ") :: m1) ++ n1)
              obtain ⟨n2, e6⟩ := strsRun (strItems_textItems l2.tail) d (some 3 :: L)
                ((σ ++ n0) ++ (emitStr false d ("\n" ++ toString (0 + 1) ++ ". ") :: m1) ++ n1
                  ++ (emitStr false d ("\n" ++ toString (1 + 1) ++ ". ") :: m2))
              obtain ⟨m3, e7⟩ := liRun hS3 d 2 L
                ((σ ++ n0) ++ (emitStr false d ("\n" ++ toString (0 + 1) ++ ". ") :: m1) ++ n1
                  ++ (emitStr false d ("\n" ++ toString (1 + 1) ++ ". ") :: m2) ++ n2)
              obtain ⟨n3, e8⟩ := strsRun (strItems_textItems l3.tail) d (some 4 :: L)
                ((σ ++ n0) ++ (emitStr false d ("\n" ++ toString (0 + 1) ++ ". ") :: m1) ++ n1
                  ++ (emitStr false d ("\n" ++ toString (1 + 1) ++ ". ") :: m2) ++ n2
                  ++ (emitStr false d ("\n" ++ toString (2 + 1) ++ ". ") :: m3))
              have e9 : ppRun ⟨d, false, some 4 :: L,
                  (σ ++ n0) ++ (emitStr false d ("\n" ++ toString (0 + 1) ++ ". ") :: m1) ++ n1
                    ++ (emitStr false d ("\n" ++ toString (1 + 1) ++ ". ") :: m2) ++ n2
                    ++ (emitStr false d ("\n" ++ toString (2 + 1) ++ ". ") :: m3) ++ n3⟩
                  [Item.END_ORDERED] =
                  .ok ⟨d, false, L,
                    (σ ++ n0) ++ (emitStr false d ("\n" ++ toString (0 + 1) ++ ". ") :: m1) ++ n1
                      ++ (emitStr false d ("\n" ++ toString (1 + 1) ++ ". ") :: m2) ++ n2
                      ++ (emitStr false d ("\n" ++ toString (2 + 1) ++ ". ") :: m3) ++ n3⟩ := by
                simp [ppRun, ppStep]
              have run := ppRun_seq e1 (ppRun_seq e2 (ppRun_seq e3 (ppRun_seq e4
                (ppRun_seq e5 (ppRun_seq e6 (ppRun_seq e7 (ppRun_seq e8 e9)))))))
              have hE1 : emitStr false d ("\n" ++ toString (0 + 1) ++ ". ") =
                  emitStr false d "\n1. " := rfl
              have hE2 : emitStr false d ("\n" ++ toString (1 + 1) ++ ". ") =
                  emitStr false d "\n2. " := rfl
              have hE3 : emitStr false d ("\n" ++ toString (2 + 1) ++ ". ") =
                  emitStr false d "\n3. " := rfl
              refine ⟨[Item.BEGIN_ORDERED] ++ (textItems t
                  ++ (([Item.LIST_ITEM, Item.INDENT] ++ b1 ++ [Item.DEDENT])
                  ++ (textItems l1.tail
                  ++ (([Item.LIST_ITEM, Item.INDENT] ++ b2 ++ [Item.DEDENT])
                  ++ (textItems l2.tail
                  ++ (([Item.LIST_ITEM, Item.INDENT] ++ b3 ++ [Item.DEDENT])
                  ++ (textItems l3.tail ++ [Item.END_ORDERED]))))))),
                ⟨d, false, L,
                  (σ ++ n0) ++ (emitStr false d ("\n" ++ toString (0 + 1) ++ ". ") :: m1) ++ n1
                    ++ (emitStr false d ("\n" ++ toString (1 + 1) ++ ". ") :: m2) ++ n2
                    ++ (emitStr false d ("\n" ++ toString (2 + 1) ++ ". ") :: m3) ++ n3⟩,
                n0, m1 ++ n1, m2 ++ n2, m3 ++ n3, ?_, run, rfl, rfl, rfl, ?_⟩
              · rw [hai, hx3, hx2, hx1]
                simp [List.append_assoc]
              · rw [hE1, hE2, hE3]
                simp [List.append_assoc]
  · intro st2 n R hst
    simp [ppStep, hst]
  · intro st2 R hst
    simp [ppStep, hst]

/-- The token stream of the concrete three-item ordered list. -/
def olStream : List Item :=
  [Item.BEGIN_ORDERED,
   Item.LIST_ITEM, Item.INDENT, Item.str "one", Item.DEDENT,
   Item.LIST_ITEM, Item.INDENT, Item.str "two",
   Item.BEGIN_UNORDERED, Item.LIST_ITEM, Item.INDENT, Item.str "sub", Item.DEDENT,
   Item.END_UNORDERED, Item.DEDENT,
   Item.LIST_ITEM, Item.INDENT, Item.str "three", Item.DEDENT,
   Item.END_ORDERED]

/-- C1, witness: the concrete ordered list with items "one", "two"
(containing an unordered sub-list) and "three", resolved from the
initial state. -/
theorem claim1_witness :
    ∃ q st' s0 s1 s2 s3,
      olStream = ([] : List Item) ++ q ∧
      ppRun ⟨0, false, [], []⟩ q = .ok st' ∧
      st'.indent_level = 0 ∧ st'.in_row = false ∧ st'.lists = [] ∧
      st'.new_strs = [] ++ s0
        ++ (emitStr false 0 "\n1. " :: s1)
        ++ (emitStr false 0 "\n2. " :: s2)
        ++ (emitStr false 0 "\n3. " :: s3) :=
  (claim1_ordered_numbering emptyNote [] none none oli1 oli2 oli3 [] olStream
    rfl rfl rfl rfl rfl rfl rfl 0 [] []).1

end Enex2Org
